import Mathlib

/-!
Shallow embedding of `chia/wallet/trade_manager.py` (the Trade Manager of the
offer subsystem) together with the external collaborators it consumes, and
proofs settling the frozen claims about its specification.

Conventions:
* Byte strings are `List Nat`.
* Python `Optional[T]` is `Option T`; a raised exception is `Except.error`.
* External collaborators that are not part of the repository source
  (the Offer codec, the trade store, the wallets, the wallet state manager)
  are modelled from the specification; each such definition carries a
  doc comment starting with `Modelled from the spec:`.
-/

abbrev Bytes := List Nat

/-- Modelled from the spec: `std_hash` (chia.util.hash) is an opaque,
collision-free 32-byte hash; we model it as an injective tag on the
hashed byte string. -/
def std_hash (b : Bytes) : Bytes := 104 :: b

/-- Puzzle hashes, modelled structurally: the well-known settlement puzzle
hash `SETTLEMENT_PH` (`Offer.ph()`), plain puzzle hashes, and the CAT-wrapped
analogue of an inner puzzle hash for a given colour. -/
inductive PH where
  | settlement : PH
  | plain : Bytes → PH
  | catWrap : Bytes → PH → PH
deriving DecidableEq, Repr

def encodePH : PH → Bytes
  | PH.settlement => [0]
  | PH.plain b => 1 :: b.length :: b
  | PH.catWrap c inner => 2 :: c.length :: (c ++ encodePH inner)

/-- A ledger coin: (parent coin id, puzzle hash, amount). -/
structure Coin where
  parent_coin_info : Bytes
  puzzle_hash : PH
  amount : Nat
deriving DecidableEq, Repr

def encodeCoin (c : Coin) : Bytes :=
  c.parent_coin_info.length :: c.parent_coin_info ++ encodePH c.puzzle_hash ++ [c.amount]

/-- Modelled from the spec: a coin is uniquely identified by a 32-byte hash
over its fields (`Coin.name()`). -/
def Coin.name (c : Coin) : Bytes := std_hash (encodeCoin c)

/-- A requested output: (puzzle hash, amount, optional memo list).  Memos are
puzzle-hash hints, so carried as `PH` values. -/
structure Payment where
  puzzle_hash : PH
  amount : Nat
  memos : Option (List PH)
deriving DecidableEq, Repr

/-- A `Payment` extended with the nonce binding it to the offered coins. -/
structure NotarizedPayment where
  nonce : Bytes
  puzzle_hash : PH
  amount : Nat
  memos : Option (List PH)
deriving DecidableEq, Repr

/-- A spend bundle: the coins it spends (removals) and the coins it creates
(additions).  Signatures are irrelevant to every claim and are omitted. -/
structure SpendBundle where
  coin_spends : List Coin
  outputs : List Coin
deriving DecidableEq, Repr

def SpendBundle.removals (sb : SpendBundle) : List Coin := sb.coin_spends

def SpendBundle.additions (sb : SpendBundle) : List Coin := sb.outputs

/-- Modelled from the spec: additions that are not ephemeral, i.e. not also
spent inside the same bundle. -/
def SpendBundle.not_ephemeral_additions (sb : SpendBundle) : List Coin :=
  sb.outputs.filter (fun c => decide (c ∉ sb.coin_spends))

def SpendBundle.aggregate (l : List SpendBundle) : SpendBundle :=
  { coin_spends := (l.map SpendBundle.coin_spends).flatten,
    outputs := (l.map SpendBundle.outputs).flatten }

def encodeBytesList (l : List Bytes) : Bytes :=
  (l.map (fun b => b.length :: b)).flatten

def encodeCoinList (l : List Coin) : Bytes := encodeBytesList (l.map encodeCoin)

def encodeBundle (sb : SpendBundle) : Bytes :=
  encodeCoinList sb.coin_spends ++ [999] ++ encodeCoinList sb.outputs

def SpendBundle.name (sb : SpendBundle) : Bytes := std_hash (encodeBundle sb)

/-- Modelled from the spec: the tree hash of a list of byte strings encoded
as a canonical list (used for the notarization nonce). -/
def tree_hash_ids (ids : List Bytes) : Bytes := 117 :: encodeBytesList ids

/-- Modelled from the spec: `Program.to([c.as_list() for c in coins]).get_tree_hash()`,
the tree hash of grouped removals in canonical list form. -/
def tree_hash_coin_list (cs : List Coin) : Bytes := 116 :: encodeCoinList cs

/-- Lexicographic order on byte strings, for sorting offered coin ids. -/
def lexLe : Bytes → Bytes → Bool
  | [], _ => true
  | _ :: _, [] => false
  | a :: as, b :: bs => if a < b then true else if b < a then false else lexLe as bs

def insertSorted (x : Bytes) : List Bytes → List Bytes
  | [] => [x]
  | y :: ys => if lexLe x y then x :: y :: ys else y :: insertSorted x ys

def sortBytes : List Bytes → List Bytes
  | [] => []
  | x :: xs => insertSorted x (sortBytes xs)

/-- Association-list lookup (Python `dict` access / `.get`). -/
def dictGet [DecidableEq κ] (d : List (κ × β)) (k : κ) : Option β :=
  (d.find? (fun kv => decide (kv.1 = k))).map (fun kv => kv.2)

/-- Python `dict` assignment: replace in place if the key exists (keeping its
position), else append. -/
def dictSet [DecidableEq κ] (d : List (κ × β)) (k : κ) (v : β) : List (κ × β) :=
  if (d.find? (fun kv => decide (kv.1 = k))).isSome then
    d.map (fun kv => if kv.1 = k then (kv.1, v) else kv)
  else d ++ [(k, v)]

/-- Python `dict.setdefault(k, []).append(x)`: append to the existing group of
`k`, creating the group at the end if absent. -/
def dictAppend [DecidableEq κ] (d : List (κ × List β)) (k : κ) (x : β) : List (κ × List β) :=
  if (d.find? (fun kv => decide (kv.1 = k))).isSome then
    d.map (fun kv => if kv.1 = k then (kv.1, kv.2 ++ [x]) else kv)
  else d ++ [(k, [x])]

/-- First-occurrence deduplication (Python `dict` / `set` key iteration order). -/
def dedupKeys [DecidableEq α] (l : List α) : List α :=
  l.foldl (fun acc a => if a ∈ acc then acc else acc ++ [a]) []

/-- An offer: the requested payments per asset key (`none` = base asset,
`some colour` = CAT) and one side's partial spend bundle.
Modelled from the spec: the Offer codec (chia.wallet.trading.offer) is not in
the repository source; its data and derived views follow spec sections 3-4.A. -/
structure Offer where
  requested_payments : List (Option Bytes × List NotarizedPayment)
  bundle : SpendBundle
deriving DecidableEq, Repr

/-- Modelled from the spec: the asset key a coin settles under - base when it
pays to the settlement puzzle, a colour when it pays to the CAT-wrapped
settlement puzzle, nothing otherwise. -/
def offeredKey : PH → Option (Option Bytes)
  | PH.settlement => some none
  | PH.catWrap c PH.settlement => some (some c)
  | _ => none

def groupByKey [DecidableEq κ] (l : List (κ × β)) : List (κ × List β) :=
  l.foldl (fun acc kv => dictAppend acc kv.1 kv.2) []

/-- Modelled from the spec: `get_offered_coins` - the bundle's outputs paying
to the settlement puzzle, partitioned by asset key. -/
def Offer.get_offered_coins (o : Offer) : List (Option Bytes × List Coin) :=
  groupByKey (o.bundle.outputs.filterMap
    (fun c => (offeredKey c.puzzle_hash).map (fun k => (k, c))))

/-- Modelled from the spec: `get_primary_coins` - the inputs spent by the
offer's bundle; ownership of these is established by the caller through the
wallet coin store. -/
def Offer.get_primary_coins (o : Offer) : List Coin := o.bundle.coin_spends

/-- Modelled from the spec: `get_involved_coins` = primary coins together with
the offered coins. -/
def Offer.get_involved_coins (o : Offer) : List Coin :=
  (o.get_primary_coins ++ (o.get_offered_coins.map (fun kv => kv.2)).flatten).dedup

/-- Modelled from the spec: `arbitrage()` maps each asset key to the signed
difference (sum offered) - (sum requested). -/
def Offer.arbitrage (o : Offer) : List (Option Bytes × Int) :=
  let offered := o.get_offered_coins
  let keys := dedupKeys (offered.map (fun kv => kv.1) ++
    o.requested_payments.map (fun kv => kv.1))
  keys.map (fun k =>
    (k, (((dictGet offered k).getD []).map (fun c => (c.amount : Int))).sum
      - (((dictGet o.requested_payments k).getD []).map (fun p => (p.amount : Int))).sum))

def encodeNotarizedPayment (p : NotarizedPayment) : Bytes :=
  p.nonce.length :: p.nonce ++ encodePH p.puzzle_hash ++ [p.amount] ++
    (match p.memos with
     | none => [0]
     | some ms => 1 :: (ms.map encodePH).flatten)

def encodeOfferKey : Option Bytes → Bytes
  | none => [0]
  | some c => 1 :: c.length :: c

def encodeOffer (o : Offer) : Bytes :=
  encodeBundle o.bundle ++ [998] ++
    (o.requested_payments.map
      (fun kv => encodeOfferKey kv.1 ++ (kv.2.map encodeNotarizedPayment).flatten)).flatten

/-- Modelled from the spec: the identity of an offer is the 32-byte hash of
its canonical serialization (`Offer.name()`). -/
def Offer.name (o : Offer) : Bytes := std_hash (encodeOffer o)

/-- Modelled from the spec: the notarization nonce for each asset key is the
tree hash of the sorted list of all offered coin ids. -/
def nonce_of (all_coins : List Coin) : Bytes :=
  tree_hash_ids (sortBytes (all_coins.map Coin.name))

/-- Modelled from the spec: `Offer.notarize_payments` stamps every requested
payment with the nonce derived from the entire set of offered coins. -/
def notarize_payments (rp : List (Option Bytes × List Payment)) (all_coins : List Coin) :
    List (Option Bytes × List NotarizedPayment) :=
  rp.map (fun kp => (kp.1, kp.2.map (fun p =>
    { nonce := nonce_of all_coins, puzzle_hash := p.puzzle_hash,
      amount := p.amount, memos := p.memos })))

def settlementPHFor : Option Bytes → PH
  | none => PH.settlement
  | some c => PH.catWrap c PH.settlement

/-- Modelled from the spec: each notarized payment produces a deterministic
announcement, a hash over the settlement puzzle of its asset key and the
payment itself. -/
def calculate_announcements (np : List (Option Bytes × List NotarizedPayment)) : List Bytes :=
  (np.map (fun kp => kp.2.map (fun p =>
    std_hash (encodePH (settlementPHFor kp.1) ++ encodeNotarizedPayment p)))).flatten

def mergeRequested (a b : List (Option Bytes × List NotarizedPayment)) :
    List (Option Bytes × List NotarizedPayment) :=
  b.foldl (fun acc kp => kp.2.foldl (fun acc2 p => dictAppend acc2 kp.1 p) acc) a

/-- Modelled from the spec: aggregation of offers is the union of their
requested payments and the aggregation of their bundles. -/
def Offer.aggregate (l : List Offer) : Offer :=
  { requested_payments := l.foldl (fun acc o => mergeRequested acc o.requested_payments) [],
    bundle := SpendBundle.aggregate (l.map Offer.bundle) }

/-- Modelled from the spec: an offer is valid when its arbitrage is zero on
every asset key. -/
def Offer.is_valid (o : Offer) : Bool :=
  o.arbitrage.all (fun kv => decide (kv.2 = 0))

/-- Modelled from the spec: `to_valid_spend` injects the settlement coin
spends consuming the offered coins and paying each notarized payment (CAT
wrapped for coloured asset keys, parented by the asset's settlement coin). -/
def Offer.to_valid_spend (o : Offer) : SpendBundle :=
  let offered := o.get_offered_coins
  let newSpends := (offered.map (fun kv => kv.2)).flatten
  let payOuts := (o.requested_payments.map (fun kp =>
    match ((dictGet offered kp.1).getD []).head? with
    | none => []
    | some sc => kp.2.map (fun p =>
        ({ parent_coin_info := sc.name,
           puzzle_hash := match kp.1 with
             | none => p.puzzle_hash
             | some c => PH.catWrap c p.puzzle_hash,
           amount := p.amount } : Coin)))).flatten
  { coin_spends := o.bundle.coin_spends ++ newSpends,
    outputs := o.bundle.outputs ++ payOuts }

/-- Trade lifecycle states. -/
inductive TradeStatus where
  | PENDING_ACCEPT
  | PENDING_CONFIRM
  | PENDING_CANCEL
  | CANCELLED
  | CONFIRMED
  | FAILED
deriving DecidableEq, Repr

/-- A persisted trade record.  The offer is stored directly rather than as a
byte blob: the spec's round trip R1 (`parse(serialize(O)) == O`) makes the two
representations interchangeable. -/
structure TradeRecord where
  confirmed_at_index : Option Nat
  accepted_at_time : Option Nat
  created_at_time : Nat
  is_my_offer : Bool
  sent : Nat
  offer : Offer
  coins_of_interest : List Coin
  trade_id : Bytes
  status : TradeStatus
deriving DecidableEq, Repr

inductive TransactionType where
  | INCOMING_TRADE
  | OUTGOING_TRADE
  | OUTGOING_TX
deriving DecidableEq, Repr

/-- A wallet transaction record (the fields the Trade Manager populates). -/
structure TxRecord where
  confirmed_at_height : Nat
  created_at_time : Nat
  to_puzzle_hash : PH
  amount : Nat
  fee_amount : Nat
  sent : Nat
  spend_bundle : Option SpendBundle
  additions : List Coin
  removals : List Coin
  wallet_id : Nat
  trade_id : Bytes
  ttype : TransactionType
  name : Bytes
deriving DecidableEq, Repr

inductive WalletType where
  | STANDARD_WALLET
  | COLOURED_COIN
  | RATE_LIMITED
deriving DecidableEq, Repr

/-- Modelled from the spec: the wallet collaborator contract (section 6).
`select_coins_result` returns `none` when coin selection fails (which raises
in the Python wallet). -/
structure Wallet where
  wid : Nat
  wtype : WalletType
  colour : Bytes
  new_puzzlehash : PH
  change_ph : PH
  confirmed_balance : Nat
  select_coins_result : Nat → Option (List Coin)

/-- A coin record of the wallet coin store, tagged with its owning wallet. -/
structure WalletCoinRecord where
  coin : Coin
  wallet_id : Nat
deriving DecidableEq, Repr

/-- A ledger coin state: the coin and the height it was spent at, if any. -/
structure CoinState where
  coin : Coin
  spent_height : Option Nat
deriving DecidableEq, Repr

/-- Modelled from the spec: the wallet state manager collaborator, represented
extensionally by its lookup tables and the ledger view. -/
structure WSM where
  wallets : List (Nat × Wallet)
  main_wallet : Wallet
  coin_store : List WalletCoinRecord
  ledger : List CoinState
  ph_owner : List (PH × Nat)
  coin_owner : List (Bytes × Nat)
  colour_owner : List (Bytes × Nat)

/-- `coin_store.get_multiple_coin_records(ids)`: the records the wallet holds
for the requested coin ids. -/
def get_multiple_coin_records (store : List WalletCoinRecord) (ids : List Bytes) :
    List WalletCoinRecord :=
  store.filter (fun r => decide (r.coin.name ∈ ids))

/-- `get_coin_state(ids)`: the coin states the ledger view holds for the
requested coin ids. -/
def get_coin_state (ledger : List CoinState) (ids : List Bytes) : List CoinState :=
  ledger.filter (fun cs => decide (cs.coin.name ∈ ids))

def get_wallet_for_coin (wsm : WSM) (coin_id : Bytes) : Option Wallet :=
  (dictGet wsm.coin_owner coin_id).bind (fun wid => dictGet wsm.wallets wid)

def get_wallet_for_colour (wsm : WSM) (c : Bytes) : Option Wallet :=
  (dictGet wsm.colour_owner c).bind (fun wid => dictGet wsm.wallets wid)

/-- Modelled from the spec: `TradeStore.get_trade_record` - lookup by primary
key `trade_id`. -/
def get_trade_record (store : List TradeRecord) (tid : Bytes) : Option TradeRecord :=
  store.find? (fun r => decide (r.trade_id = tid))

/-- Modelled from the spec: `TradeStore.set_status` mutates the status column
of the record with the given trade id and, when a confirmation height is
supplied (`height = some h`), the confirmed-at-height column. -/
def set_status (store : List TradeRecord) (tid : Bytes) (st : TradeStatus)
    (height : Option (Option Nat)) : List TradeRecord :=
  store.map (fun r =>
    if r.trade_id = tid then
      { r with status := st,
               confirmed_at_index := match height with
                 | none => r.confirmed_at_index
                 | some h => h }
    else r)

/-- Modelled from the spec: `save(record)` is an idempotent insert-or-replace
on `trade_id`. -/
def save_trade (store : List TradeRecord) (rec : TradeRecord) : List TradeRecord :=
  if (store.find? (fun r => decide (r.trade_id = rec.trade_id))).isSome then
    store.map (fun r => if r.trade_id = rec.trade_id then rec else r)
  else store ++ [rec]

/-- `TradeManager.get_trade_by_coin` (lines 74-81): the first stored trade
that is not CANCELLED and watches the coin. -/
def get_trade_by_coin (store : List TradeRecord) (coin : Coin) : Option TradeRecord :=
  store.find? (fun t =>
    decide (¬ t.status = TradeStatus.CANCELLED ∧ coin ∈ t.coins_of_interest))

/-- `TradeManager.maybe_create_wallets_for_offer` (lines 275-285): the colours
appearing in the offer's arbitrage for which no wallet exists yet (these get a
fresh CAT wallet created).  The trade store is untouched. -/
def maybe_create_wallets_for_offer (wsm : WSM) (o : Offer) : List Bytes :=
  (o.arbitrage.map (fun kv => kv.1)).filterMap (fun k =>
    match k with
    | none => none
    | some c =>
      match dictGet wsm.colour_owner c with
      | some _ => none
      | none => some c)

/-- Lines 97-106 of `coins_of_interest_farmed`: the ids of the settlement
coins on our side - offered coins whose parent is one of our primary coins,
primary coins being filtered through the wallet coin store. -/
def our_settlement_ids_of (wsm : WSM) (offer : Offer) : List Bytes :=
  let primary_coin_ids : List Bytes := offer.get_primary_coins.map Coin.name
  let our_coin_records := get_multiple_coin_records wsm.coin_store primary_coin_ids
  let our_primary_coins : List Bytes := our_coin_records.map (fun cr => cr.coin.name)
  let all_settlement_payments : List Coin :=
    (offer.get_offered_coins.map (fun kv => kv.2)).flatten
  let our_settlement_payments : List Coin :=
    all_settlement_payments.filter
      (fun c => decide ((c.parent_coin_info : Bytes) ∈ our_primary_coins))
  our_settlement_payments.map Coin.name

/-- Lines 108-111: the coin states the ledger returns for our settlement ids. -/
def settlement_states_of (wsm : WSM) (offer : Offer) : List CoinState :=
  get_coin_state wsm.ledger (our_settlement_ids_of wsm offer)

/-- Line 114: the non-emptiness test of the intersection of our settlement ids
with the names of the returned coin states (`set(...) & set(...)`).  Note that
this never consults `spent_height`. -/
def settlement_present (wsm : WSM) (offer : Offer) : Bool :=
  (our_settlement_ids_of wsm offer).any
    (fun i => decide (i ∈ (settlement_states_of wsm offer).map (fun cs => cs.coin.name)))

/-- Line 115: `coin_states[0].spent_height` - the spent height of the first
returned coin state, whether or not that state is spent.  (The empty case is
unreachable when the intersection test succeeded.) -/
def first_state_height (wsm : WSM) (offer : Offer) : Option Nat :=
  match settlement_states_of wsm offer with
  | [] => none
  | cs :: _ => cs.spent_height

/-- Lines 97-126: the body of `coins_of_interest_farmed` for the trade located
from the watched coin. -/
def farm_step (wsm : WSM) (store : List TradeRecord) (trade : TradeRecord) :
    List TradeRecord :=
  if settlement_present wsm trade.offer then
    let _created := maybe_create_wallets_for_offer wsm trade.offer
    set_status store trade.trade_id TradeStatus.CONFIRMED
      (some (first_state_height wsm trade.offer))
  else if trade.status = TradeStatus.PENDING_CANCEL then
    set_status store trade.trade_id TradeStatus.CANCELLED none
  else if trade.status = TradeStatus.PENDING_CONFIRM then
    set_status store trade.trade_id TradeStatus.FAILED none
  else store

/-- `TradeManager.coins_of_interest_farmed` (lines 83-126), returning the
updated trade store.  Line 94 of the source only logs when `spent_height` is
null - there is no early return, so execution continues regardless. -/
def coins_of_interest_farmed (wsm : WSM) (store : List TradeRecord)
    (coin_state : CoinState) : List TradeRecord :=
  match get_trade_by_coin store coin_state.coin with
  | none => store
  | some trade => farm_step wsm store trade

/-- `TradeManager.cancel_pending_offer` (lines 158-159). -/
def cancel_pending_offer (store : List TradeRecord) (tid : Bytes) : List TradeRecord :=
  set_status store tid TradeStatus.CANCELLED none

/-- Modelled from the spec: `wallet.generate_signed_transaction` - the wallet
produces a signed transaction paying `amount` to `to_ph` (CAT-wrapped on chain
for coloured wallets), spending exactly `coins`, returning change to itself. -/
def gen_signed_tx (w : Wallet) (amount : Nat) (to_ph : PH) (fee : Nat)
    (coins : List Coin) : TxRecord :=
  let chain_ph := match w.wtype with
    | WalletType.COLOURED_COIN => PH.catWrap w.colour to_ph
    | _ => to_ph
  let total := (coins.map Coin.amount).sum
  let parent := ((coins.head?).map Coin.name).getD []
  let pay : Coin := { parent_coin_info := parent, puzzle_hash := chain_ph, amount := amount }
  let change : List Coin :=
    if amount + fee < total then
      [{ parent_coin_info := parent, puzzle_hash := w.change_ph,
         amount := total - amount - fee }]
    else []
  let sb : SpendBundle := { coin_spends := coins, outputs := pay :: change }
  { confirmed_at_height := 0, created_at_time := 0, to_puzzle_hash := to_ph,
    amount := amount, fee_amount := fee, sent := 0, spend_bundle := some sb,
    additions := pay :: change, removals := coins, wallet_id := w.wid,
    trade_id := [], ttype := TransactionType.OUTGOING_TX, name := sb.name }

/-- Modelled from the spec: the coloured wallet's list-shaped
`generate_signed_transaction([amount], [ph], ...)`, one record per payment. -/
def gen_signed_tx_cat (w : Wallet) (amounts : List Nat) (phs : List PH) (fee : Nat)
    (coins : List Coin) : List TxRecord :=
  match amounts, phs with
  | a :: _, p :: _ => [gen_signed_tx w a p fee coins]
  | _, _ => []

/-- `TradeManager.cancel_pending_offer_safely` (lines 161-185).  Returns the
Python result (`None` when the trade is absent, `Some ()` otherwise), the
pending transactions submitted, and the updated trade store. -/
def cancel_pending_offer_safely (wsm : WSM) (store : List TradeRecord) (tid : Bytes) :
    Option Unit × List TxRecord × List TradeRecord :=
  match get_trade_record store tid with
  | none => (none, [], store)
  | some trade =>
    let txs := trade.offer.get_primary_coins.filterMap (fun coin =>
      match get_wallet_for_coin wsm coin.name with
      | none => none
      | some wallet =>
        let new_ph := wallet.new_puzzlehash
        match wallet.wtype with
        | WalletType.COLOURED_COIN =>
          (gen_signed_tx_cat wallet [coin.amount] [new_ph] 0 [coin]).head?
        | _ => some (gen_signed_tx wallet coin.amount new_ph 0 [coin]))
    (some (), txs, set_status store tid TradeStatus.PENDING_CANCEL none)

/-- Errors raised (Python exceptions) or returned (error messages) by the
Trade Manager; each constructor records the data the message names. -/
inductive TMErr where
  | keyError (wallet_id : Nat)
  | unsupportedWalletType (wt : WalletType)
  | insufficientFunds (wallet_id : Nat)
  | coinSelectionFailed (wallet_id : Nat)
  | indexError
  | errorCreatingOffer
  | missingCAT (asset_id : Bytes)
  | assertionFailed
deriving DecidableEq, Repr

/-- Line 233 of trade_manager.py evaluates the Python truthiness of the enum
member `WalletType.STANDARD_WALLET` itself (`None if WalletType.STANDARD_WALLET
else [p2_ph]`), not the wallet's type.  `WalletType` is an IntEnum whose
`STANDARD_WALLET` member has value 0 and is therefore falsy (IntEnum members
use `int.__bool__`), so the conditional always selects `[p2_ph]`, for every
asset type. -/
def walletTypeStandardTruthy : Bool := false

/-- The asset key chosen for a positive entry (lines 226-231): base wallets map
to `None`, coloured wallets to their colour, anything else raises ValueError. -/
def assetKeyFor (w : Wallet) : Except TMErr (Option Bytes) :=
  match w.wtype with
  | WalletType.STANDARD_WALLET => Except.ok none
  | WalletType.COLOURED_COIN => Except.ok (some w.colour)
  | wt => Except.error (TMErr.unsupportedWalletType wt)

/-- The per-entry loop of `_create_offer_for_ids` (lines 221-239), threading
the `coins_to_offer` and `requested_payments` dictionaries. -/
def buildLoop (wsm : WSM) :
    List (Nat × Int) → List (Nat × List Coin) → List (Option Bytes × List Payment) →
    Except TMErr (List (Nat × List Coin) × List (Option Bytes × List Payment))
  | [], cto, rp => Except.ok (cto, rp)
  | (id, amount) :: rest, cto, rp =>
    match dictGet wsm.wallets id with
    | none => Except.error (TMErr.keyError id)
    | some wallet =>
      if amount > 0 then
        match assetKeyFor wallet with
        | Except.error e => Except.error e
        | Except.ok key =>
          let p2_ph := wallet.new_puzzlehash
          let memos : Option (List PH) :=
            if walletTypeStandardTruthy then none else some [p2_ph]
          buildLoop wsm rest cto
            (dictSet rp key [{ puzzle_hash := p2_ph, amount := amount.toNat, memos := memos }])
      else if amount < 0 then
        if (wallet.confirmed_balance : Int) < (amount.natAbs : Int) then
          Except.error (TMErr.insufficientFunds id)
        else
          match wallet.select_coins_result amount.natAbs with
          | none => Except.error (TMErr.coinSelectionFailed id)
          | some coins => buildLoop wsm rest (dictSet cto id coins) rp
      else buildLoop wsm rest cto rp

/-- The signed-transaction loop of `_create_offer_for_ids` (lines 248-263):
one wallet transaction per `coins_to_offer` entry, paying `|offer_dict[id]|`
to the settlement puzzle hash `Offer.ph()` with zero fee. -/
def genAllTransactions (wsm : WSM) (offer_dict : List (Nat × Int)) :
    List (Nat × List Coin) → Except TMErr (List TxRecord)
  | [] => Except.ok []
  | (wallet_id, selected) :: rest =>
    match dictGet wsm.wallets wallet_id with
    | none => Except.error (TMErr.keyError wallet_id)
    | some wallet =>
      let amt := ((dictGet offer_dict wallet_id).getD 0).natAbs
      match genAllTransactions wsm offer_dict rest with
      | Except.error e => Except.error e
      | Except.ok txs =>
        match wallet.wtype with
        | WalletType.COLOURED_COIN =>
          Except.ok (gen_signed_tx_cat wallet [amt] [PH.settlement] 0 selected ++ txs)
        | _ =>
          Except.ok (gen_signed_tx wallet amt PH.settlement 0 selected :: txs)

/-- `TradeManager._create_offer_for_ids` (lines 214-273).  The `except` block
re-raises (`raise e`) before its structured `return False, None, str(e)`, so
every construction failure surfaces as `Except.error` and the only reachable
return value is `(True, offer, None)`. -/
def underscore_create_offer_for_ids (wsm : WSM) (offer_dict : List (Nat × Int)) :
    Except TMErr (Bool × Option Offer × Option TMErr) :=
  match buildLoop wsm offer_dict [] [] with
  | Except.error e => Except.error e
  | Except.ok (coins_to_offer, requested_payments) =>
    let all_coins : List Coin := (coins_to_offer.map (fun kv => kv.2)).flatten
    let notarized := notarize_payments requested_payments all_coins
    let announcements_to_assert := calculate_announcements notarized
    match announcements_to_assert.head? with
    | none => Except.error TMErr.indexError
    | some _ =>
      match genAllTransactions wsm offer_dict coins_to_offer with
      | Except.error e => Except.error e
      | Except.ok all_transactions =>
        let total_spend_bundle :=
          SpendBundle.aggregate (all_transactions.filterMap (fun tx => tx.spend_bundle))
        Except.ok (true, some { requested_payments := notarized, bundle := total_spend_bundle },
          none)

/-- `TradeManager.create_offer_for_ids` (lines 190-212): raises when the inner
builder failed, otherwise persists a PENDING_ACCEPT maker record and returns
the structured triple together with the updated trade store. -/
def create_offer_for_ids (wsm : WSM) (store : List TradeRecord) (now : Nat)
    (offer_dict : List (Nat × Int)) :
    Except TMErr ((Bool × Option TradeRecord × Option TMErr) × List TradeRecord) :=
  match underscore_create_offer_for_ids wsm offer_dict with
  | Except.error e => Except.error e
  | Except.ok (success, created?, error) =>
    if success = false ∨ created? = none then Except.error TMErr.errorCreatingOffer
    else
      match created? with
      | none => Except.error TMErr.errorCreatingOffer
      | some created_offer =>
        let trade_offer : TradeRecord :=
          { confirmed_at_index := some 0, accepted_at_time := none, created_at_time := now,
            is_my_offer := true, sent := 0, offer := created_offer,
            coins_of_interest := created_offer.get_involved_coins,
            trade_id := created_offer.name, status := TradeStatus.PENDING_ACCEPT }
        Except.ok ((success, some trade_offer, error), save_trade store trade_offer)

/-- The wallet-resolution loop of `respond_to_offer` (lines 288-297), building
`take_offer_dict`; the error value is the colour of the first asset for which
no CAT wallet exists. -/
def resolveLoop (wsm : WSM) :
    List (Option Bytes × Int) → List (Nat × Int) → Except Bytes (List (Nat × Int))
  | [], acc => Except.ok acc
  | (asset_id, amount) :: rest, acc =>
    match asset_id with
    | none => resolveLoop wsm rest (dictSet acc wsm.main_wallet.wid amount)
    | some c =>
      match get_wallet_for_colour wsm c with
      | none => Except.error c
      | some wallet => resolveLoop wsm rest (dictSet acc wallet.wid amount)

/-- The all-zero sentinel puzzle hash used where value leaves the wallet
without a local recipient (`bytes32([0] * 32)`). -/
def zeros32 : PH := PH.plain (List.replicate 32 0)

/-- `wallet.convert_puzzle_hash` per the collaborator contract: coloured
wallets unwrap the CAT wrapper, base wallets are the identity. -/
def convert_puzzle_hash (w : Wallet) (ph : PH) : PH :=
  match w.wtype, ph with
  | WalletType.COLOURED_COIN, PH.catWrap _ inner => inner
  | _, p => p

/-- The removal-grouping loop of `respond_to_offer` (lines 344-351): removals
that are settlement-coin parents, grouped by their owning wallet with
`setdefault` semantics. -/
def removal_dict (wsm : WSM) (settlement_parents : List Bytes) :
    List Coin → List (Nat × List Coin) → List (Nat × List Coin)
  | [], acc => acc
  | removal :: rest, acc =>
    if (removal.name : Bytes) ∈ settlement_parents then
      match dictGet wsm.ph_owner removal.puzzle_hash with
      | none => removal_dict wsm settlement_parents rest acc
      | some wallet_id => removal_dict wsm settlement_parents rest (dictAppend acc wallet_id removal)
    else removal_dict wsm settlement_parents rest acc

/-- One OUTGOING_TRADE transaction row (lines 353-376): zero-byte recipient
sentinel, summed amount, and stable name `H(bundle_id || tree_hash(group))`. -/
def outgoing_row (now : Nat) (bundle_name trade_id : Bytes) (wg : Nat × List Coin) : TxRecord :=
  let grouped_removals := wg.2
  let removal_tree_hash := tree_hash_coin_list grouped_removals
  { confirmed_at_height := 0, created_at_time := now, to_puzzle_hash := zeros32,
    amount := (grouped_removals.map Coin.amount).sum, fee_amount := 0, sent := 10,
    spend_bundle := none, additions := [], removals := grouped_removals,
    wallet_id := wg.1, trade_id := trade_id, ttype := TransactionType.OUTGOING_TRADE,
    name := std_hash (bundle_name ++ removal_tree_hash) }

/-- The settlement coins of an offer: all offered coins across asset keys
(line 308). -/
def settlementCoinsOf (o : Offer) : List Coin :=
  (o.get_offered_coins.map (fun kv => kv.2)).flatten

/-- The parent ids of an offer's settlement coins (line 310). -/
def settlementParentsOf (o : Offer) : List Bytes :=
  (settlementCoinsOf o).map Coin.parent_coin_info

/-- The INCOMING_TRADE rows (lines 314-341): one per non-ephemeral addition
whose parent is a settlement coin and whose puzzle hash maps to a wallet. -/
def incoming_rows (wsm : WSM) (now : Nat) (bundle_name tid : Bytes)
    (settlement_coin_ids : List Bytes) (additions : List Coin) : List TxRecord :=
  additions.filterMap (fun addition =>
    if (addition.parent_coin_info : Bytes) ∈ settlement_coin_ids then
      match dictGet wsm.ph_owner addition.puzzle_hash with
      | none => none
      | some wallet_id =>
        match dictGet wsm.wallets wallet_id with
        | none => none
        | some wallet =>
          some { confirmed_at_height := 0, created_at_time := now,
                 to_puzzle_hash := convert_puzzle_hash wallet addition.puzzle_hash,
                 amount := addition.amount, fee_amount := 0, sent := 10,
                 spend_bundle := none, additions := [], removals := [],
                 wallet_id := wallet_id, trade_id := tid,
                 ttype := TransactionType.INCOMING_TRADE,
                 name := std_hash (bundle_name ++ addition.name) }
    else none)

/-- The transaction-history rows of `respond_to_offer` (lines 314-376): the
INCOMING_TRADE rows followed by one OUTGOING_TRADE row per removal group. -/
def trade_history_rows (wsm : WSM) (now : Nat) (complete_offer : Offer)
    (final_spend_bundle : SpendBundle) : List TxRecord :=
  incoming_rows wsm now final_spend_bundle.name complete_offer.name
    ((settlementCoinsOf complete_offer).map Coin.name)
    final_spend_bundle.not_ephemeral_additions
  ++ (removal_dict wsm (settlementParentsOf complete_offer)
        final_spend_bundle.removals []).map
      (outgoing_row now final_spend_bundle.name complete_offer.name)

/-- The dummy push transaction carrying the aggregate bundle (lines 393-411). -/
def push_tx_of (now : Nat) (tid : Bytes) (final_spend_bundle : SpendBundle) : TxRecord :=
  { confirmed_at_height := 0, created_at_time := now, to_puzzle_hash := zeros32,
    amount := 0, fee_amount := 0, sent := 0,
    spend_bundle := some final_spend_bundle, additions := final_spend_bundle.additions,
    removals := final_spend_bundle.removals, wallet_id := 0,
    trade_id := tid, ttype := TransactionType.OUTGOING_TRADE,
    name := final_spend_bundle.name }

/-- The side effects of a `respond_to_offer` call: the resulting trade store,
the pending transactions pushed, and the history rows added. -/
structure RespondEffects where
  store : List TradeRecord
  pending_txs : List TxRecord
  added_txs : List TxRecord
deriving DecidableEq, Repr

/-- The infallible tail of `respond_to_offer` (lines 303-416) once the
complementary offer has been built and the aggregate validated. -/
def respond_success (wsm : WSM) (store : List TradeRecord) (now : Nat)
    (offer take_offer : Offer) :
    (Bool × Option TradeRecord × Option TMErr) × RespondEffects :=
  let complete_offer := Offer.aggregate [offer, take_offer]
  let final_spend_bundle := complete_offer.to_valid_spend
  let txs := trade_history_rows wsm now complete_offer final_spend_bundle
  let trade_record : TradeRecord :=
    { confirmed_at_index := some 0, accepted_at_time := some now, created_at_time := now,
      is_my_offer := false, sent := 0, offer := complete_offer,
      coins_of_interest := complete_offer.get_involved_coins,
      trade_id := complete_offer.name, status := TradeStatus.PENDING_CONFIRM }
  let store2 := save_trade store trade_record
  let push_tx : TxRecord := push_tx_of now complete_offer.name final_spend_bundle
  ((true, some trade_record, none),
    { store := store2, pending_txs := [push_tx], added_txs := txs })

/-- `TradeManager.respond_to_offer` (lines 287-416).  A missing CAT wallet is
a structured `(False, None, message)` return with no effects; builder failures
propagate as exceptions (see `underscore_create_offer_for_ids`); an unbalanced
aggregate fails the `assert complete_offer.is_valid()`. -/
def respond_to_offer (wsm : WSM) (store : List TradeRecord) (now : Nat) (offer : Offer) :
    Except TMErr ((Bool × Option TradeRecord × Option TMErr) × RespondEffects) :=
  match resolveLoop wsm offer.arbitrage [] with
  | Except.error c =>
    Except.ok ((false, none, some (TMErr.missingCAT c)),
      { store := store, pending_txs := [], added_txs := [] })
  | Except.ok take_offer_dict =>
    match underscore_create_offer_for_ids wsm take_offer_dict with
    | Except.error e => Except.error e
    | Except.ok (success, take_offer?, error) =>
      if success = false then
        Except.ok ((false, none, error),
          { store := store, pending_txs := [], added_txs := [] })
      else
        match take_offer? with
        | none => Except.error TMErr.assertionFailed
        | some take_offer =>
          if (Offer.aggregate [offer, take_offer]).is_valid then
            Except.ok (respond_success wsm store now offer take_offer)
          else Except.error TMErr.assertionFailed

/-! ## Helper lemmas about the trade store operations -/

instance {ε α : Type} [DecidableEq ε] [DecidableEq α] : DecidableEq (Except ε α) := fun x y =>
  match x, y with
  | Except.ok a, Except.ok b =>
    if h : a = b then isTrue (by rw [h])
    else isFalse (fun hc => h (by cases hc; rfl))
  | Except.error a, Except.error b =>
    if h : a = b then isTrue (by rw [h])
    else isFalse (fun hc => h (by cases hc; rfl))
  | Except.ok _, Except.error _ => isFalse (fun hc => Except.noConfusion hc)
  | Except.error _, Except.ok _ => isFalse (fun hc => Except.noConfusion hc)

theorem find?_sat {α : Type} {p : α → Bool} {l : List α} {a : α}
    (h : l.find? p = some a) : p a = true := by
  induction l with
  | nil => simp [List.find?] at h
  | cons x xs ih =>
    cases hx : p x with
    | true =>
      simp [List.find?, hx] at h
      subst h
      exact hx
    | false =>
      simp [List.find?, hx] at h
      exact ih h

theorem mem_set_status {store : List TradeRecord} {tid : Bytes} {st : TradeStatus}
    {height : Option (Option Nat)} {r' : TradeRecord}
    (hm : r' ∈ set_status store tid st height) :
    (r'.trade_id = tid ∧ r'.status = st) ∨ (r' ∈ store ∧ ¬ r'.trade_id = tid) := by
  unfold set_status at hm
  rcases List.mem_map.mp hm with ⟨r0, hr0, heq⟩
  by_cases h : r0.trade_id = tid
  · left
    simp only [if_pos h] at heq
    subst heq
    exact ⟨h, rfl⟩
  · right
    simp only [if_neg h] at heq
    subst heq
    exact ⟨hr0, h⟩

theorem set_status_mem_status {store : List TradeRecord} {tid : Bytes} {st : TradeStatus}
    {height : Option (Option Nat)} {r' : TradeRecord}
    (hm : r' ∈ set_status store tid st height) (ht : r'.trade_id = tid) : r'.status = st := by
  rcases mem_set_status hm with ⟨_, h2⟩ | ⟨_, h2⟩
  · exact h2
  · exact absurd ht h2

theorem get_trade_by_coin_spec {store : List TradeRecord} {coin : Coin} {t : TradeRecord}
    (h : get_trade_by_coin store coin = some t) :
    t ∈ store ∧ ¬ t.status = TradeStatus.CANCELLED ∧ coin ∈ t.coins_of_interest := by
  unfold get_trade_by_coin at h
  have hmem := List.mem_of_find?_eq_some h
  have hb := find?_sat h
  have hp2 := of_decide_eq_true hb
  exact ⟨hmem, hp2.1, hp2.2⟩

/-! ## Concrete scenario: a watched primary coin, its settlement coin, and a
ledger where the settlement coin exists but is unspent -/

def exP1 : Coin := { parent_coin_info := [1], puzzle_hash := PH.plain [2], amount := 100 }

def exS1c : Coin := { parent_coin_info := exP1.name, puzzle_hash := PH.settlement, amount := 100 }

def exOffer1 : Offer :=
  { requested_payments :=
      [(some [7], [{ nonce := [5], puzzle_hash := PH.plain [3], amount := 50, memos := none }])],
    bundle := { coin_spends := [exP1], outputs := [exS1c] } }

def dummyWallet : Wallet :=
  { wid := 0, wtype := WalletType.STANDARD_WALLET, colour := [], new_puzzlehash := PH.plain [9],
    change_ph := PH.plain [8], confirmed_balance := 0, select_coins_result := fun _ => none }

def exWSM1 : WSM :=
  { wallets := [], main_wallet := dummyWallet,
    coin_store := [{ coin := exP1, wallet_id := 1 }],
    ledger := [{ coin := exS1c, spent_height := none }],
    ph_owner := [], coin_owner := [], colour_owner := [] }

def exRec1 : TradeRecord :=
  { confirmed_at_index := some 0, accepted_at_time := none, created_at_time := 0,
    is_my_offer := true, sent := 0, offer := exOffer1,
    coins_of_interest := exOffer1.get_involved_coins, trade_id := [42],
    status := TradeStatus.PENDING_ACCEPT }

def exCS1 : CoinState := { coin := exP1, spent_height := some 10 }

/-- C1: the claim states the trade transitions to CONFIRMED iff one of our
settlement coins has actually been spent, recording the first observed
spent height.  The code (lines 113-118) only intersects the settlement coin
ids with the ids the ledger returned states for - it never inspects
`spent_height` - and records `coin_states[0].spent_height` verbatim.  At this
input the settlement coin exists on the ledger but is unspent
(`spent_height = none`), our primary coin is owned by us, and the handler
nonetheless marks the PENDING_ACCEPT trade CONFIRMED with a null confirmation
height, contradicting the claim and the function's own comment
"If any of our settlement_payments were spent, this offer was a success!". -/
theorem c1_confirm_without_spend :
    get_coin_state exWSM1.ledger [exS1c.name] = [{ coin := exS1c, spent_height := none }] ∧
    exS1c.parent_coin_info = exP1.name ∧
    get_multiple_coin_records exWSM1.coin_store [exP1.name] = [{ coin := exP1, wallet_id := 1 }] ∧
    [exRec1].map TradeRecord.status = [TradeStatus.PENDING_ACCEPT] ∧
    (coins_of_interest_farmed exWSM1 [exRec1] exCS1).map
        (fun r => (r.status, r.confirmed_at_index)) = [(TradeStatus.CONFIRMED, none)] := by
  decide

/-! ## Concrete scenario: the watched coin merely appeared (spent_height null) -/

def exRec9 : TradeRecord := { exRec1 with status := TradeStatus.PENDING_CONFIRM, trade_id := [43] }

def exWSM9 : WSM := { exWSM1 with ledger := [] }

def exCS9 : CoinState := { coin := exP1, spent_height := none }

/-- C9: the claim states that a CoinState with null `spent_height` leaves
every trade status unchanged.  Line 94 of the source only logs ("has not been
spent so trade can remain valid") and does not return, so the handler falls
through: with no settlement coin state on the ledger, the PENDING_CONFIRM
trade is marked FAILED by a coin that was never spent. -/
theorem c9_null_spent_height_mutates :
    exCS9.spent_height = none ∧
    [exRec9].map TradeRecord.status = [TradeStatus.PENDING_CONFIRM] ∧
    (coins_of_interest_farmed exWSM9 [exRec9] exCS9).map TradeRecord.status
      = [TradeStatus.FAILED] := by
  decide

/-! ## Concrete scenario: building an offer that requests a base and a
coloured asset -/

def exWalletStd3 : Wallet := { dummyWallet with wid := 1 }

def exWalletCat3 : Wallet :=
  { wid := 2, wtype := WalletType.COLOURED_COIN, colour := [7], new_puzzlehash := PH.plain [3],
    change_ph := PH.plain [4], confirmed_balance := 1000,
    select_coins_result := fun _ => none }

def exWSM3 : WSM :=
  { wallets := [(1, exWalletStd3), (2, exWalletCat3)], main_wallet := exWalletStd3,
    coin_store := [], ledger := [],
    ph_owner := [], coin_owner := [], colour_owner := [([7], 2)] }

/-- The requested payments (asset key and memo list of each payment) of the
offer built by `_create_offer_for_ids`, when it succeeds. -/
def built_requested_memos (wsm : WSM) (offer_dict : List (Nat × Int)) :
    Option (List (Option Bytes × List (Option (List PH)))) :=
  match underscore_create_offer_for_ids wsm offer_dict with
  | Except.ok (_, some o, _) =>
    some (o.requested_payments.map (fun kp => (kp.1, kp.2.map NotarizedPayment.memos)))
  | _ => none

/-- C3: the claim states each requested payment for a coloured asset carries a
memo list including the fresh `p2_ph` AND each base-asset payment carries no
memos.  Line 233 of the source (`None if WalletType.STANDARD_WALLET else
[p2_ph]`) tests the truthiness of the IntEnum member itself; its value is 0,
so the member is falsy and the conditional always selects `[p2_ph]`.  The
coloured half of the claim therefore holds, but the base half fails:
requesting 100 of the base asset from standard wallet 1 (fresh puzzle hash
`PH.plain [9]`) produces a requested payment under key `none` whose memos are
`[p2_ph]` instead of none. -/
theorem c3_base_memos_carry_p2ph :
    (dictGet exWSM3.wallets 1).map (fun w => w.wtype) = some WalletType.STANDARD_WALLET ∧
    (dictGet exWSM3.wallets 1).map (fun w => w.new_puzzlehash) = some (PH.plain [9]) ∧
    (dictGet exWSM3.wallets 2).map (fun w => w.wtype) = some WalletType.COLOURED_COIN ∧
    (dictGet exWSM3.wallets 2).map (fun w => w.new_puzzlehash) = some (PH.plain [3]) ∧
    built_requested_memos exWSM3 [(1, 100), (2, 50)]
      = some [(none, [some [PH.plain [9]]]), (some [7], [some [PH.plain [3]]])] := by
  decide

/-! ## Concrete scenario: building an offer with insufficient funds -/

def exWalletStd5 : Wallet := { dummyWallet with wid := 1, confirmed_balance := 50 }

def exWSM5 : WSM :=
  { wallets := [(1, exWalletStd5)], main_wallet := exWalletStd5, coin_store := [], ledger := [],
    ph_owner := [], coin_owner := [], colour_owner := [] }

/-- C5: the claim states that construction failures yield the structured
`(False, None, message)` triple rather than raising.  The `except` block of
`_create_offer_for_ids` re-raises (`raise e`, line 270) before its structured
return, and `create_offer_for_ids` raises whenever the inner call did not
succeed (line 193), so an insufficient-balance input surfaces as an exception
(`Except.error`) from both entry points, never as a structured triple.  (No
TradeRecord is written: the exception propagates before any record exists.) -/
theorem c5_construction_failure_raises :
    underscore_create_offer_for_ids exWSM5 [(1, (-100 : Int))]
      = Except.error (TMErr.insufficientFunds 1) ∧
    create_offer_for_ids exWSM5 [] 0 [(1, (-100 : Int))]
      = Except.error (TMErr.insufficientFunds 1) := by
  decide

/-- C10: cancelling a trade id that is not in the trade store returns `None`
immediately: no transaction is generated, none is submitted, and the store is
unchanged (lines 164-166). -/
theorem c10_absent_trade_no_effects (wsm : WSM) (store : List TradeRecord) (tid : Bytes)
    (h : get_trade_record store tid = none) :
    cancel_pending_offer_safely wsm store tid = (none, [], store) := by
  unfold cancel_pending_offer_safely
  rw [h]

/-- Witness for C10 at a concrete store that does not contain trade id [99]. -/
theorem c10_absent_trade_no_effects_witness :
    cancel_pending_offer_safely exWSM1 [exRec1] [99] = (none, [], [exRec1]) :=
  c10_absent_trade_no_effects exWSM1 [exRec1] [99] (by decide)

/-! ## C2: stickiness of terminal statuses -/

def exRecC2 : TradeRecord := { exRec1 with status := TradeStatus.CONFIRMED, trade_id := [44] }

def exRecC2c : TradeRecord := { exRec1 with status := TradeStatus.CANCELLED, trade_id := [45] }

/-- C2 counterexample: a trade in the terminal status CONFIRMED is moved to
CANCELLED by `cancel_pending_offer` (which sets CANCELLED unconditionally,
line 159) and to PENDING_CANCEL by `cancel_pending_offer_safely` (line 185),
so the claim that no subsequent operation changes a terminal status is false. -/
theorem c2_terminal_not_sticky :
    exRecC2.status = TradeStatus.CONFIRMED ∧
    (cancel_pending_offer [exRecC2] exRecC2.trade_id).map TradeRecord.status
      = [TradeStatus.CANCELLED] ∧
    ((cancel_pending_offer_safely exWSM1 [exRecC2] exRecC2.trade_id).2.2).map TradeRecord.status
      = [TradeStatus.PENDING_CANCEL] := by
  decide

/-- Shape analysis of the on-ledger handler: it either leaves the store
unchanged or applies exactly one `set_status` to a stored, non-CANCELLED
trade, with CANCELLED/FAILED only reachable from PENDING_CANCEL /
PENDING_CONFIRM respectively. -/
theorem handler_shape (wsm : WSM) (store : List TradeRecord) (cs : CoinState) :
    coins_of_interest_farmed wsm store cs = store ∨
    ∃ t, t ∈ store ∧ ¬ t.status = TradeStatus.CANCELLED ∧
      ((∃ h, coins_of_interest_farmed wsm store cs
          = set_status store t.trade_id TradeStatus.CONFIRMED (some h)) ∨
       (t.status = TradeStatus.PENDING_CANCEL ∧ coins_of_interest_farmed wsm store cs
          = set_status store t.trade_id TradeStatus.CANCELLED none) ∨
       (t.status = TradeStatus.PENDING_CONFIRM ∧ coins_of_interest_farmed wsm store cs
          = set_status store t.trade_id TradeStatus.FAILED none)) := by
  unfold coins_of_interest_farmed
  cases hg : get_trade_by_coin store cs.coin with
  | none => exact Or.inl rfl
  | some t =>
    obtain ⟨hmem, hnc, _⟩ := get_trade_by_coin_spec hg
    by_cases h1 : settlement_present wsm t.offer = true
    · exact Or.inr ⟨t, hmem, hnc,
        Or.inl ⟨first_state_height wsm t.offer, by simp [farm_step, h1]⟩⟩
    · by_cases h2 : t.status = TradeStatus.PENDING_CANCEL
      · exact Or.inr ⟨t, hmem, hnc,
          Or.inr (Or.inl ⟨h2, by simp [farm_step, h1, h2]⟩)⟩
      · by_cases h3 : t.status = TradeStatus.PENDING_CONFIRM
        · exact Or.inr ⟨t, hmem, hnc,
            Or.inr (Or.inr ⟨h3, by simp [farm_step, h1, h2, h3]⟩)⟩
        · exact Or.inl (by simp [farm_step, h1, h2, h3])

/-- The amended stickiness property: a CANCELLED trade keeps its status under
the on-ledger handler and under `cancel_pending_offer`, and a CONFIRMED trade
keeps its status under the on-ledger handler.  (The counterexample shows the
rest of the original claim fails: the cancel operations overwrite terminal
statuses, and the handler can move FAILED to CONFIRMED.) -/
def C2Spec (wsm : WSM) (store : List TradeRecord) (cs : CoinState) (r : TradeRecord) : Prop :=
  (r.status = TradeStatus.CANCELLED →
    (∀ r' ∈ coins_of_interest_farmed wsm store cs,
        r'.trade_id = r.trade_id → r'.status = TradeStatus.CANCELLED) ∧
    (∀ r' ∈ cancel_pending_offer store r.trade_id,
        r'.trade_id = r.trade_id → r'.status = TradeStatus.CANCELLED)) ∧
  (r.status = TradeStatus.CONFIRMED →
    ∀ r' ∈ coins_of_interest_farmed wsm store cs,
        r'.trade_id = r.trade_id → r'.status = TradeStatus.CONFIRMED)

/-- C2 (amended): in a store with unique trade ids, a CANCELLED trade's status
survives `coins_of_interest_farmed` (cancelled trades are skipped by
`get_trade_by_coin`) and `cancel_pending_offer` (which re-sets CANCELLED), and
a CONFIRMED trade's status survives `coins_of_interest_farmed`. -/
theorem c2_amended_partial_stickiness (wsm : WSM) (store : List TradeRecord) (cs : CoinState)
    (r : TradeRecord) (hmem : r ∈ store)
    (hnodup : (store.map TradeRecord.trade_id).Nodup) : C2Spec wsm store cs r := by
  have hinj := List.inj_on_of_nodup_map hnodup
  constructor
  · intro hr
    constructor
    · intro r' hr' htid
      rcases handler_shape wsm store cs with heq | ⟨t, htmem, htnc, hbr⟩
      · rw [heq] at hr'
        have he : r' = r := hinj hr' hmem htid
        rw [he]
        exact hr
      · have htr : ¬ t.trade_id = r.trade_id := by
          intro he
          have ht : t = r := hinj htmem hmem he
          rw [ht] at htnc
          exact htnc hr
        rcases hbr with ⟨hh, heq⟩ | ⟨hst, heq⟩ | ⟨hst, heq⟩ <;>
        · rw [heq] at hr'
          rcases mem_set_status hr' with ⟨h1, _⟩ | ⟨h1, _⟩
          · exact absurd (h1.symm.trans htid) htr
          · have he : r' = r := hinj h1 hmem htid
            rw [he]
            exact hr
    · intro r' hr' htid
      unfold cancel_pending_offer at hr'
      exact set_status_mem_status hr' htid
  · intro hr r' hr' htid
    rcases handler_shape wsm store cs with heq | ⟨t, htmem, htnc, hbr⟩
    · rw [heq] at hr'
      have he : r' = r := hinj hr' hmem htid
      rw [he]
      exact hr
    · rcases hbr with ⟨hh, heq⟩ | ⟨hst, heq⟩ | ⟨hst, heq⟩
      · rw [heq] at hr'
        rcases mem_set_status hr' with ⟨_, h2⟩ | ⟨h1, _⟩
        · exact h2
        · have he : r' = r := hinj h1 hmem htid
          rw [he]
          exact hr
      · rw [heq] at hr'
        rcases mem_set_status hr' with ⟨h1, _⟩ | ⟨h1, _⟩
        · have hte : t.trade_id = r.trade_id := h1.symm.trans htid
          have ht : t = r := hinj htmem hmem hte
          rw [ht, hr] at hst
          simp at hst
        · have he : r' = r := hinj h1 hmem htid
          rw [he]
          exact hr
      · rw [heq] at hr'
        rcases mem_set_status hr' with ⟨h1, _⟩ | ⟨h1, _⟩
        · have hte : t.trade_id = r.trade_id := h1.symm.trans htid
          have ht : t = r := hinj htmem hmem hte
          rw [ht, hr] at hst
          simp at hst
        · have he : r' = r := hinj h1 hmem htid
          rw [he]
          exact hr

/-- Witness for the amended C2 at a concrete two-trade store. -/
theorem c2_amended_partial_stickiness_witness :
    C2Spec exWSM1 [exRecC2c, exRec1] exCS1 exRecC2c :=
  c2_amended_partial_stickiness exWSM1 [exRecC2c, exRec1] exCS1 exRecC2c
    (by decide) (by decide)

/-! ## C8: safe cancellation -/

/-- What `cancel_pending_offer_safely` does for a stored trade: it reports
success, every submitted pending transaction spends one primary coin of the
trade's offer back to a fresh puzzle hash of its owning wallet with zero fee
and the coin's full amount, every primary coin whose owning wallet is found is
covered by such a transaction, and the trade ends in status PENDING_CANCEL. -/
def C8Spec (wsm : WSM) (store : List TradeRecord) (tid : Bytes) (trade : TradeRecord) : Prop :=
  (cancel_pending_offer_safely wsm store tid).1 = some () ∧
  (∀ tx ∈ (cancel_pending_offer_safely wsm store tid).2.1,
    ∃ coin ∈ trade.offer.get_primary_coins, ∃ w, get_wallet_for_coin wsm coin.name = some w ∧
      tx.amount = coin.amount ∧ tx.fee_amount = 0 ∧
      tx.to_puzzle_hash = w.new_puzzlehash ∧ tx.wallet_id = w.wid) ∧
  (∀ coin ∈ trade.offer.get_primary_coins, ∀ w, get_wallet_for_coin wsm coin.name = some w →
    ∃ tx ∈ (cancel_pending_offer_safely wsm store tid).2.1,
      tx.amount = coin.amount ∧ tx.fee_amount = 0 ∧ tx.to_puzzle_hash = w.new_puzzlehash) ∧
  (∀ r' ∈ (cancel_pending_offer_safely wsm store tid).2.2,
    r'.trade_id = tid → r'.status = TradeStatus.PENDING_CANCEL)

/-- The transaction generated for one primary coin during safe cancellation
(lines 168-183): `None` when no wallet owns the coin, otherwise the wallet's
signed transaction with zero fee, full amount, fresh puzzle hash. -/
def cancel_tx_for (wsm : WSM) (coin : Coin) : Option TxRecord :=
  match get_wallet_for_coin wsm coin.name with
  | none => none
  | some wallet =>
    let new_ph := wallet.new_puzzlehash
    match wallet.wtype with
    | WalletType.COLOURED_COIN =>
      (gen_signed_tx_cat wallet [coin.amount] [new_ph] 0 [coin]).head?
    | _ => some (gen_signed_tx wallet coin.amount new_ph 0 [coin])

theorem cancel_tx_for_fields (wsm : WSM) (coin : Coin) (tx : TxRecord)
    (h : cancel_tx_for wsm coin = some tx) :
    ∃ w, get_wallet_for_coin wsm coin.name = some w ∧
      tx.amount = coin.amount ∧ tx.fee_amount = 0 ∧
      tx.to_puzzle_hash = w.new_puzzlehash ∧ tx.wallet_id = w.wid := by
  unfold cancel_tx_for at h
  cases hw : get_wallet_for_coin wsm coin.name with
  | none => rw [hw] at h; cases h
  | some w =>
    rw [hw] at h
    dsimp only at h
    refine ⟨w, rfl, ?_⟩
    cases hwt : w.wtype <;>
    · rw [hwt] at h
      simp [gen_signed_tx_cat] at h
      rw [← h]
      simp [gen_signed_tx]

theorem cancel_tx_for_isSome (wsm : WSM) (coin : Coin) (w : Wallet)
    (hw : get_wallet_for_coin wsm coin.name = some w) :
    cancel_tx_for wsm coin
      = some (gen_signed_tx w coin.amount w.new_puzzlehash 0 [coin]) := by
  unfold cancel_tx_for
  rw [hw]
  dsimp only
  cases hwt : w.wtype <;> simp [gen_signed_tx_cat, hwt]

/-- C8: for a trade id present in the store, safe cancellation generates, for
each primary coin of the trade's offer whose owning wallet is found, a signed
zero-fee transaction paying the coin's full amount to a freshly derived puzzle
hash of that wallet, submits exactly those as pending transactions, and sets
the trade's status to PENDING_CANCEL. -/
theorem c8_cancel_safe_spends_primaries (wsm : WSM) (store : List TradeRecord)
    (tid : Bytes) (trade : TradeRecord)
    (h : get_trade_record store tid = some trade) : C8Spec wsm store tid trade := by
  have hres : cancel_pending_offer_safely wsm store tid =
      (some (), trade.offer.get_primary_coins.filterMap (cancel_tx_for wsm),
        set_status store tid TradeStatus.PENDING_CANCEL none) := by
    unfold cancel_pending_offer_safely
    rw [h]
    rfl
  refine ⟨by rw [hres], ?_, ?_, ?_⟩
  · intro tx htx
    rw [hres] at htx
    dsimp only at htx
    rcases List.mem_filterMap.mp htx with ⟨coin, hc, hf⟩
    rcases cancel_tx_for_fields wsm coin tx hf with ⟨w, hw, hfields⟩
    exact ⟨coin, hc, w, hw, hfields⟩
  · intro coin hc w hw
    refine ⟨gen_signed_tx w coin.amount w.new_puzzlehash 0 [coin], ?_, ?_⟩
    · rw [hres]
      dsimp only
      exact List.mem_filterMap.mpr ⟨coin, hc, cancel_tx_for_isSome wsm coin w hw⟩
    · simp [gen_signed_tx]
  · intro r' hr' htid
    rw [hres] at hr'
    dsimp only at hr'
    exact set_status_mem_status hr' htid

def exWSM8 : WSM :=
  { wallets := [(1, { dummyWallet with wid := 1 })], main_wallet := dummyWallet,
    coin_store := [], ledger := [], ph_owner := [],
    coin_owner := [(exP1.name, 1)], colour_owner := [] }

/-- Witness for C8 at a concrete store holding the trade with id [42]. -/
theorem c8_cancel_safe_spends_primaries_witness : C8Spec exWSM8 [exRec1] [42] exRec1 :=
  c8_cancel_safe_spends_primaries exWSM8 [exRec1] [42] exRec1 (by decide)

/-! ## C4: responding without the needed CAT wallet -/

theorem resolveLoop_missing (wsm : WSM) :
    ∀ (l : List (Option Bytes × Int)) (acc : List (Nat × Int)),
    (∃ p ∈ l, ∃ c, p.1 = some c ∧ get_wallet_for_colour wsm c = none) →
    ∃ c, get_wallet_for_colour wsm c = none ∧ resolveLoop wsm l acc = Except.error c := by
  intro l
  induction l with
  | nil =>
    intro acc h
    rcases h with ⟨p, hp, _⟩
    cases hp
  | cons hd rest ih =>
    intro acc h
    rcases hd with ⟨k, amt⟩
    cases k with
    | none =>
      have h' : ∃ p ∈ rest, ∃ c, p.1 = some c ∧ get_wallet_for_colour wsm c = none := by
        rcases h with ⟨p, hp, c, hc1, hc2⟩
        rcases List.mem_cons.mp hp with he | hr
        · rw [he] at hc1
          cases hc1
        · exact ⟨p, hr, c, hc1, hc2⟩
      rcases ih (dictSet acc wsm.main_wallet.wid amt) h' with ⟨c, hw, heq⟩
      exact ⟨c, hw, by rw [resolveLoop, heq]⟩
    | some cc =>
      cases hw : get_wallet_for_colour wsm cc with
      | none => exact ⟨cc, hw, by rw [resolveLoop, hw]⟩
      | some w =>
        have h' : ∃ p ∈ rest, ∃ c, p.1 = some c ∧ get_wallet_for_colour wsm c = none := by
          rcases h with ⟨p, hp, c, hc1, hc2⟩
          rcases List.mem_cons.mp hp with he | hr
          · rw [he] at hc1
            cases hc1
            rw [hw] at hc2
            cases hc2
          · exact ⟨p, hr, c, hc1, hc2⟩
        rcases ih (dictSet acc w.wid amt) h' with ⟨c, hcw, heq⟩
        refine ⟨c, hcw, ?_⟩
        rw [resolveLoop, hw]
        exact heq

/-- Responding to an offer whose arbitrage names a colour we hold no wallet
for yields the structured `(False, None, message-naming-the-asset)` result,
with the trade store unchanged and no transactions produced. -/
def C4Spec (wsm : WSM) (store : List TradeRecord) (now : Nat) (o : Offer) : Prop :=
  ∃ c, get_wallet_for_colour wsm c = none ∧
    respond_to_offer wsm store now o = Except.ok ((false, none, some (TMErr.missingCAT c)),
      { store := store, pending_txs := [], added_txs := [] })

/-- C4: if some colour in the peer offer's arbitrage has no local CAT wallet,
`respond_to_offer` returns `(False, None, "Do not have a CAT of asset ID: <c>
to fulfill offer")` for such a colour and writes no TradeRecord (lines
290-297). -/
theorem c4_missing_cat_wallet (wsm : WSM) (store : List TradeRecord) (now : Nat) (o : Offer)
    (h : ∃ p ∈ o.arbitrage, ∃ c, p.1 = some c ∧ get_wallet_for_colour wsm c = none) :
    C4Spec wsm store now o := by
  rcases resolveLoop_missing wsm o.arbitrage [] h with ⟨c, hw, heq⟩
  refine ⟨c, hw, ?_⟩
  unfold respond_to_offer
  rw [heq]

/-! ## The balanced base-for-CAT scenario (spec scenario S1) used as witness -/

def peerCoin : Coin := { parent_coin_info := [11], puzzle_hash := PH.plain [12], amount := 100 }

def peerSettle : Coin :=
  { parent_coin_info := peerCoin.name, puzzle_hash := PH.settlement, amount := 100 }

/-- A peer's partial offer: 100 of the base asset offered into settlement,
50 of colour [7] requested. -/
def peerOffer : Offer :=
  { requested_payments :=
      [(some [7], [{ nonce := [5], puzzle_hash := PH.plain [21], amount := 50,
                     memos := some [PH.plain [21]] }])],
    bundle := { coin_spends := [peerCoin], outputs := [peerSettle] } }

def catCoin : Coin :=
  { parent_coin_info := [31], puzzle_hash := PH.catWrap [7] (PH.plain [32]), amount := 50 }

def exWalletStd6 : Wallet :=
  { wid := 1, wtype := WalletType.STANDARD_WALLET, colour := [], new_puzzlehash := PH.plain [41],
    change_ph := PH.plain [42], confirmed_balance := 1000, select_coins_result := fun _ => none }

def exWalletCat6 : Wallet :=
  { wid := 2, wtype := WalletType.COLOURED_COIN, colour := [7], new_puzzlehash := PH.plain [43],
    change_ph := PH.plain [44], confirmed_balance := 50,
    select_coins_result := fun n => if n = 50 then some [catCoin] else none }

def exWSM6 : WSM :=
  { wallets := [(1, exWalletStd6), (2, exWalletCat6)], main_wallet := exWalletStd6,
    coin_store := [{ coin := catCoin, wallet_id := 2 }], ledger := [],
    ph_owner := [(PH.plain [41], 1), (catCoin.puzzle_hash, 2)],
    coin_owner := [(catCoin.name, 2)], colour_owner := [([7], 2)] }

/-- The same node with no CAT wallets at all. -/
def exWSM4 : WSM := { exWSM6 with colour_owner := [] }

/-- Witness for C4: the peer offer names colour [7], which `exWSM4` has no
wallet for. -/
theorem c4_missing_cat_wallet_witness : C4Spec exWSM4 [] 0 peerOffer :=
  c4_missing_cat_wallet exWSM4 [] 0 peerOffer
    ⟨(some [7], (-50 : Int)), by decide, [7], rfl, rfl⟩

/-! ## C6: the fields of freshly created trade records -/

theorem create_offer_success_fields (wsm : WSM) (store : List TradeRecord) (now : Nat)
    (d : List (Nat × Int)) {sM : Bool} {recM : TradeRecord} {eM : Option TMErr}
    {store2 : List TradeRecord}
    (h : create_offer_for_ids wsm store now d = Except.ok ((sM, some recM, eM), store2)) :
    recM.status = TradeStatus.PENDING_ACCEPT ∧ recM.is_my_offer = true ∧
    recM.trade_id = recM.offer.name ∧
    recM.coins_of_interest = recM.offer.get_involved_coins := by
  unfold create_offer_for_ids at h
  cases hu : underscore_create_offer_for_ids wsm d with
  | error e => rw [hu] at h; cases h
  | ok trip =>
    rw [hu] at h
    obtain ⟨success, created?, err⟩ := trip
    dsimp only at h
    cases created? with
    | none =>
      rw [if_pos (Or.inr rfl)] at h
      cases h
    | some created =>
      cases hs : success with
      | false =>
        rw [hs, if_pos (Or.inl rfl)] at h
        cases h
      | true =>
        rw [hs] at h
        rw [if_neg (by simp)] at h
        dsimp only at h
        simp only [Except.ok.injEq, Prod.mk.injEq, Option.some.injEq] at h
        obtain ⟨⟨hs', hrec, he⟩, hst⟩ := h
        rw [← hrec]
        exact ⟨rfl, rfl, rfl, rfl⟩

theorem respond_to_offer_ok (wsm : WSM) (store : List TradeRecord) (now : Nat) (po : Offer)
    {rec : TradeRecord} {eff : RespondEffects}
    (h : respond_to_offer wsm store now po = Except.ok ((true, some rec, none), eff)) :
    ∃ take_offer, respond_success wsm store now po take_offer
      = ((true, some rec, none), eff) := by
  unfold respond_to_offer at h
  cases hr : resolveLoop wsm po.arbitrage [] with
  | error c =>
    rw [hr] at h
    simp at h
  | ok dict =>
    rw [hr] at h
    dsimp only at h
    cases hu : underscore_create_offer_for_ids wsm dict with
    | error e => rw [hu] at h; cases h
    | ok trip =>
      rw [hu] at h
      obtain ⟨success, takeOffer?, err⟩ := trip
      dsimp only at h
      split at h
      · simp at h
      · cases takeOffer? with
        | none => cases h
        | some take_offer =>
          dsimp only at h
          split at h
          · refine ⟨take_offer, ?_⟩
            injection h
          · cases h

theorem respond_success_fields (wsm : WSM) (store : List TradeRecord) (now : Nat)
    (o t : Offer) {rec : TradeRecord} {eff : RespondEffects}
    (h : respond_success wsm store now o t = ((true, some rec, none), eff)) :
    rec.status = TradeStatus.PENDING_CONFIRM ∧ rec.is_my_offer = false ∧
    rec.trade_id = rec.offer.name ∧
    rec.coins_of_interest = rec.offer.get_involved_coins := by
  unfold respond_success at h
  simp only [Prod.mk.injEq, Option.some.injEq, true_and, and_true] at h
  obtain ⟨hrec, heff⟩ := h
  rw [← hrec]
  exact ⟨rfl, rfl, rfl, rfl⟩

/-- The claimed facts about the records created by the maker and taker paths:
statuses PENDING_ACCEPT / PENDING_CONFIRM, `is_my_offer` true / false, trade
id equal to the stored offer's canonical hash, and coins of interest equal to
the stored offer's involved coins. -/
def C6Spec (recM recT : TradeRecord) : Prop :=
  recM.status = TradeStatus.PENDING_ACCEPT ∧ recM.is_my_offer = true ∧
  recM.trade_id = recM.offer.name ∧
  recM.coins_of_interest = recM.offer.get_involved_coins ∧
  recT.status = TradeStatus.PENDING_CONFIRM ∧ recT.is_my_offer = false ∧
  recT.trade_id = recT.offer.name ∧
  recT.coins_of_interest = recT.offer.get_involved_coins

/-- C6: every record created by `create_offer_for_ids` is a PENDING_ACCEPT
record with `is_my_offer = True`, and every record created by a successful
`respond_to_offer` is a PENDING_CONFIRM record with `is_my_offer = False`; in
both, `trade_id` is the canonical hash of the stored offer and
`coins_of_interest` is the offer's involved-coin set at creation (lines
195-212 and 378-391). -/
theorem c6_trade_record_creation (wsmM wsmT : WSM) (storeM storeT : List TradeRecord)
    (nowM nowT : Nat) (d : List (Nat × Int)) (po : Offer) (sM : Bool) (eM : Option TMErr)
    (recM recT : TradeRecord) (storeM2 : List TradeRecord) (eff : RespondEffects)
    (h1 : create_offer_for_ids wsmM storeM nowM d = Except.ok ((sM, some recM, eM), storeM2))
    (h2 : respond_to_offer wsmT storeT nowT po = Except.ok ((true, some recT, none), eff)) :
    C6Spec recM recT := by
  obtain ⟨hM1, hM2, hM3, hM4⟩ := create_offer_success_fields wsmM storeM nowM d h1
  obtain ⟨toff, hto⟩ := respond_to_offer_ok wsmT storeT nowT po h2
  obtain ⟨hT1, hT2, hT3, hT4⟩ := respond_success_fields wsmT storeT nowT po toff hto
  exact ⟨hM1, hM2, hM3, hM4, hT1, hT2, hT3, hT4⟩

def fallbackRec : TradeRecord :=
  { confirmed_at_index := none, accepted_at_time := none, created_at_time := 0,
    is_my_offer := false, sent := 0,
    offer := { requested_payments := [], bundle := { coin_spends := [], outputs := [] } },
    coins_of_interest := [], trade_id := [], status := TradeStatus.PENDING_ACCEPT }

/-- The maker-path call of the S1 scenario: offer 50 of colour [7], request
100 of the base asset. -/
def exMakerCall : Except TMErr ((Bool × Option TradeRecord × Option TMErr) × List TradeRecord) :=
  create_offer_for_ids exWSM6 [] 55 [(1, 100), (2, (-50 : Int))]

def exMakerRec : TradeRecord :=
  match exMakerCall with
  | Except.ok ((_, some r, _), _) => r
  | _ => fallbackRec

/-- The taker-path call of the S1 scenario. -/
def exTakerCall : Except TMErr ((Bool × Option TradeRecord × Option TMErr) × RespondEffects) :=
  respond_to_offer exWSM6 [] 77 peerOffer

def exTakerRec : TradeRecord :=
  match exTakerCall with
  | Except.ok ((_, some r, _), _) => r
  | _ => fallbackRec

def exTakerEff : RespondEffects :=
  match exTakerCall with
  | Except.ok (_, eff) => eff
  | _ => { store := [], pending_txs := [], added_txs := [] }

/-- Witness for C6 on the concrete balanced base-for-CAT scenario. -/
theorem c6_trade_record_creation_witness : C6Spec exMakerRec exTakerRec :=
  c6_trade_record_creation exWSM6 exWSM6 [] [] 55 77 [(1, 100), (2, (-50 : Int))] peerOffer
    true none exMakerRec exTakerRec [exMakerRec] exTakerEff (by decide) (by decide)

/-! ## C7: the OUTGOING_TRADE rows of respond_to_offer -/

theorem dictAppend_keys {κ β : Type} [DecidableEq κ] (d : List (κ × List β)) (k : κ) (x : β) :
    ((dictAppend d k x).map Prod.fst = d.map Prod.fst) ∨
    ((dictAppend d k x).map Prod.fst = d.map Prod.fst ++ [k] ∧ k ∉ d.map Prod.fst) := by
  unfold dictAppend
  split
  next hfound =>
    left
    rw [List.map_map]
    apply List.map_congr_left
    intro a _
    by_cases ha : a.1 = k
    · simp [ha]
    · simp [ha]
  next hnone =>
    right
    constructor
    · simp
    · intro hk
      rcases List.mem_map.mp hk with ⟨kv, hkv, hfst⟩
      exact hnone (List.find?_isSome.mpr ⟨kv, hkv, decide_eq_true hfst⟩)

theorem dictAppend_keys_nodup {κ β : Type} [DecidableEq κ] {d : List (κ × List β)}
    {k : κ} {x : β} (h : (d.map Prod.fst).Nodup) :
    ((dictAppend d k x).map Prod.fst).Nodup := by
  rcases dictAppend_keys d k x with he | ⟨he, hk⟩
  · rw [he]
    exact h
  · rw [he]
    refine List.Nodup.append h (List.nodup_singleton k) ?_
    intro a ha hb
    rw [List.mem_singleton.mp hb] at ha
    exact hk ha

theorem dictAppend_groups {κ β : Type} [DecidableEq κ] {P : κ → β → Prop}
    {d : List (κ × List β)} {k : κ} {x : β}
    (hd : ∀ p ∈ d, ∀ b ∈ p.2, P p.1 b) (hx : P k x) :
    ∀ p ∈ dictAppend d k x, ∀ b ∈ p.2, P p.1 b := by
  unfold dictAppend
  split
  · intro p hp b hb
    rcases List.mem_map.mp hp with ⟨q, hq, heq⟩
    by_cases hqk : q.1 = k
    · rw [if_pos hqk] at heq
      rw [← heq] at hb ⊢
      rcases List.mem_append.mp hb with h1 | h1
      · exact hd q hq b h1
      · rw [List.mem_singleton.mp h1]
        rw [show ((q.1, q.2 ++ [x]) : κ × List β).1 = k from hqk]
        exact hx
    · rw [if_neg hqk] at heq
      rw [← heq] at hb ⊢
      exact hd q hq b hb
  · intro p hp b hb
    rcases List.mem_append.mp hp with h1 | h1
    · exact hd p h1 b hb
    · rw [List.mem_singleton.mp h1] at hb ⊢
      rw [List.mem_singleton.mp hb]
      exact hx

theorem dictAppend_nonempty {κ β : Type} [DecidableEq κ] {d : List (κ × List β)}
    {k : κ} {x : β} (hd : ∀ p ∈ d, ¬ p.2 = []) :
    ∀ p ∈ dictAppend d k x, ¬ p.2 = [] := by
  unfold dictAppend
  split
  · intro p hp
    rcases List.mem_map.mp hp with ⟨q, hq, heq⟩
    by_cases hqk : q.1 = k
    · rw [if_pos hqk] at heq
      rw [← heq]
      simp
    · rw [if_neg hqk] at heq
      rw [← heq]
      exact hd q hq
  · intro p hp
    rcases List.mem_append.mp hp with h1 | h1
    · exact hd p h1
    · rw [List.mem_singleton.mp h1]
      simp

theorem dictAppend_mono {κ β : Type} [DecidableEq κ] {d : List (κ × List β)} {k : κ} {x : β}
    {w : κ} {b : β} (h : ∃ g, (w, g) ∈ d ∧ b ∈ g) :
    ∃ g, (w, g) ∈ dictAppend d k x ∧ b ∈ g := by
  rcases h with ⟨g, hg, hb⟩
  unfold dictAppend
  split
  · by_cases hwk : w = k
    · refine ⟨g ++ [x], ?_, List.mem_append_left _ hb⟩
      have hm := List.mem_map_of_mem
        (fun kv : κ × List β => if kv.1 = k then (kv.1, kv.2 ++ [x]) else kv) hg
      simpa [hwk] using hm
    · refine ⟨g, ?_, hb⟩
      have hm := List.mem_map_of_mem
        (fun kv : κ × List β => if kv.1 = k then (kv.1, kv.2 ++ [x]) else kv) hg
      simpa [hwk] using hm
  · exact ⟨g, List.mem_append_left _ hg, hb⟩

theorem dictAppend_self {κ β : Type} [DecidableEq κ] (d : List (κ × List β)) (k : κ) (x : β) :
    ∃ g, (k, g) ∈ dictAppend d k x ∧ x ∈ g := by
  unfold dictAppend
  split
  next hfound =>
    rcases Option.isSome_iff_exists.mp hfound with ⟨kv, hkv⟩
    have hkb := find?_sat hkv
    have hk : kv.1 = k := of_decide_eq_true hkb
    have hmem := List.mem_of_find?_eq_some hkv
    refine ⟨kv.2 ++ [x], ?_, List.mem_append_right _ (List.mem_singleton_self x)⟩
    have hm := List.mem_map_of_mem
      (fun kv : κ × List β => if kv.1 = k then (kv.1, kv.2 ++ [x]) else kv) hmem
    simpa [hk] using hm
  · exact ⟨[x], List.mem_append_right _ (List.mem_singleton_self _),
      List.mem_singleton_self _⟩

theorem removal_dict_groups (wsm : WSM) (parents : List Bytes) (P : Nat → Coin → Prop) :
    ∀ (rs : List Coin) (acc : List (Nat × List Coin)),
    (∀ p ∈ acc, ∀ c ∈ p.2, P p.1 c) →
    (∀ c ∈ rs, ∀ wid, (c.name : Bytes) ∈ parents →
      dictGet wsm.ph_owner c.puzzle_hash = some wid → P wid c) →
    ∀ p ∈ removal_dict wsm parents rs acc, ∀ c ∈ p.2, P p.1 c := by
  intro rs
  induction rs with
  | nil =>
    intro acc hacc _ p hp
    exact hacc p hp
  | cons r rest ih =>
    intro acc hacc hnew
    unfold removal_dict
    split
    next hrp =>
      cases hlk : dictGet wsm.ph_owner r.puzzle_hash with
      | none =>
        exact ih acc hacc (fun c hc wid h1 h2 => hnew c (List.mem_cons_of_mem r hc) wid h1 h2)
      | some wid =>
        refine ih (dictAppend acc wid r)
          (dictAppend_groups hacc (hnew r (List.mem_cons_self r rest) wid hrp hlk))
          (fun c hc w h1 h2 => hnew c (List.mem_cons_of_mem r hc) w h1 h2)
    next hrp =>
      exact ih acc hacc (fun c hc wid h1 h2 => hnew c (List.mem_cons_of_mem r hc) wid h1 h2)

theorem removal_dict_keys_nodup (wsm : WSM) (parents : List Bytes) :
    ∀ (rs : List Coin) (acc : List (Nat × List Coin)),
    (acc.map Prod.fst).Nodup → ((removal_dict wsm parents rs acc).map Prod.fst).Nodup := by
  intro rs
  induction rs with
  | nil =>
    intro acc h
    exact h
  | cons r rest ih =>
    intro acc h
    unfold removal_dict
    split
    · cases hlk : dictGet wsm.ph_owner r.puzzle_hash with
      | none => exact ih acc h
      | some wid => exact ih _ (dictAppend_keys_nodup h)
    · exact ih acc h

theorem removal_dict_nonempty (wsm : WSM) (parents : List Bytes) :
    ∀ (rs : List Coin) (acc : List (Nat × List Coin)),
    (∀ p ∈ acc, ¬ p.2 = []) → ∀ p ∈ removal_dict wsm parents rs acc, ¬ p.2 = [] := by
  intro rs
  induction rs with
  | nil =>
    intro acc h p hp
    exact h p hp
  | cons r rest ih =>
    intro acc h
    unfold removal_dict
    split
    · cases hlk : dictGet wsm.ph_owner r.puzzle_hash with
      | none => exact ih acc h
      | some wid => exact ih _ (dictAppend_nonempty h)
    · exact ih acc h

theorem removal_dict_mono (wsm : WSM) (parents : List Bytes) :
    ∀ (rs : List Coin) (acc : List (Nat × List Coin)) (w : Nat) (c : Coin),
    (∃ g, (w, g) ∈ acc ∧ c ∈ g) →
    ∃ g, (w, g) ∈ removal_dict wsm parents rs acc ∧ c ∈ g := by
  intro rs
  induction rs with
  | nil =>
    intro acc w c h
    exact h
  | cons r rest ih =>
    intro acc w c h
    unfold removal_dict
    split
    · cases hlk : dictGet wsm.ph_owner r.puzzle_hash with
      | none => exact ih acc w c h
      | some wid => exact ih _ w c (dictAppend_mono h)
    · exact ih acc w c h

theorem removal_dict_complete (wsm : WSM) (parents : List Bytes) :
    ∀ (rs : List Coin) (acc : List (Nat × List Coin)) (c : Coin) (wid : Nat),
    c ∈ rs → (c.name : Bytes) ∈ parents → dictGet wsm.ph_owner c.puzzle_hash = some wid →
    ∃ g, (wid, g) ∈ removal_dict wsm parents rs acc ∧ c ∈ g := by
  intro rs
  induction rs with
  | nil =>
    intro acc c wid hc
    cases hc
  | cons r rest ih =>
    intro acc c wid hc hp hlk
    rcases List.mem_cons.mp hc with he | hr
    · subst he
      unfold removal_dict
      rw [if_pos hp, hlk]
      exact removal_dict_mono wsm parents rest _ _ _ (dictAppend_self acc wid c)
    · unfold removal_dict
      split
      · cases hlk2 : dictGet wsm.ph_owner r.puzzle_hash with
        | none => exact ih acc c wid hr hp hlk
        | some w2 => exact ih _ c wid hr hp hlk
      · exact ih acc c wid hr hp hlk

theorem incoming_rows_ttype (wsm : WSM) (now : Nat) (bname tid : Bytes)
    (ids : List Bytes) (adds : List Coin) :
    ∀ tx ∈ incoming_rows wsm now bname tid ids adds,
      tx.ttype = TransactionType.INCOMING_TRADE := by
  intro tx htx
  unfold incoming_rows at htx
  rcases List.mem_filterMap.mp htx with ⟨a, _, hf⟩
  split at hf
  · cases hlk : dictGet wsm.ph_owner a.puzzle_hash with
    | none =>
      rw [hlk] at hf
      cases hf
    | some wid =>
      rw [hlk] at hf
      dsimp only at hf
      cases hw : dictGet wsm.wallets wid with
      | none =>
        rw [hw] at hf
        cases hf
      | some w =>
        rw [hw] at hf
        rw [← Option.some.inj hf]
  · cases hf

/-- The OUTGOING_TRADE rows among the history rows are exactly the per-group
rows built from the removal dictionary. -/
theorem trade_history_rows_outgoing (wsm : WSM) (now : Nat) (co : Offer) (fb : SpendBundle) :
    (trade_history_rows wsm now co fb).filter
        (fun tx => decide (tx.ttype = TransactionType.OUTGOING_TRADE))
      = (removal_dict wsm (settlementParentsOf co) fb.removals []).map
          (outgoing_row now fb.name co.name) := by
  unfold trade_history_rows
  rw [List.filter_append]
  have h1 : (incoming_rows wsm now fb.name co.name
      ((settlementCoinsOf co).map Coin.name) fb.not_ephemeral_additions).filter
        (fun tx => decide (tx.ttype = TransactionType.OUTGOING_TRADE)) = [] := by
    rw [List.filter_eq_nil_iff]
    intro tx htx
    rw [incoming_rows_ttype wsm now fb.name co.name _ _ tx htx]
    decide
  have h2 : ((removal_dict wsm (settlementParentsOf co) fb.removals []).map
      (outgoing_row now fb.name co.name)).filter
        (fun tx => decide (tx.ttype = TransactionType.OUTGOING_TRADE))
      = (removal_dict wsm (settlementParentsOf co) fb.removals []).map
          (outgoing_row now fb.name co.name) := by
    rw [List.filter_eq_self]
    intro tx htx
    rcases List.mem_map.mp htx with ⟨wg, _, heq⟩
    rw [← heq]
    rfl
  rw [h1, h2, List.nil_append]

theorem c7_rows (wsm : WSM) (now : Nat) (co : Offer) (fb : SpendBundle) :
    (((trade_history_rows wsm now co fb).filter
        (fun tx => decide (tx.ttype = TransactionType.OUTGOING_TRADE))).map
      TxRecord.wallet_id).Nodup ∧
    (∀ tx ∈ (trade_history_rows wsm now co fb).filter
        (fun tx => decide (tx.ttype = TransactionType.OUTGOING_TRADE)),
      tx.to_puzzle_hash = zeros32 ∧
      tx.amount = (tx.removals.map Coin.amount).sum ∧
      tx.name = std_hash (fb.name ++ tree_hash_coin_list tx.removals) ∧
      ¬ tx.removals = [] ∧
      ∀ c ∈ tx.removals, c ∈ fb.removals ∧ (c.name : Bytes) ∈ settlementParentsOf co ∧
        dictGet wsm.ph_owner c.puzzle_hash = some tx.wallet_id) ∧
    (∀ c ∈ fb.removals, (c.name : Bytes) ∈ settlementParentsOf co →
      ∀ wid, dictGet wsm.ph_owner c.puzzle_hash = some wid →
        ∃ tx ∈ (trade_history_rows wsm now co fb).filter
            (fun tx => decide (tx.ttype = TransactionType.OUTGOING_TRADE)),
          tx.wallet_id = wid ∧ c ∈ tx.removals) := by
  rw [trade_history_rows_outgoing]
  refine ⟨?_, ?_, ?_⟩
  · rw [List.map_map]
    have he : (removal_dict wsm (settlementParentsOf co) fb.removals []).map
        (TxRecord.wallet_id ∘ outgoing_row now fb.name co.name)
        = (removal_dict wsm (settlementParentsOf co) fb.removals []).map Prod.fst :=
      List.map_congr_left (fun wg _ => rfl)
    rw [he]
    exact removal_dict_keys_nodup wsm (settlementParentsOf co) fb.removals [] (by simp)
  · intro tx htx
    rcases List.mem_map.mp htx with ⟨wg, hwg, heq⟩
    have hgrp := removal_dict_groups wsm (settlementParentsOf co)
      (fun wid c => c ∈ fb.removals ∧ (c.name : Bytes) ∈ settlementParentsOf co ∧
        dictGet wsm.ph_owner c.puzzle_hash = some wid)
      fb.removals [] (by intro p hp; cases hp) (fun c hc wid h1 h2 => ⟨hc, h1, h2⟩)
      wg hwg
    have hne := removal_dict_nonempty wsm (settlementParentsOf co)
      fb.removals [] (by intro p hp; cases hp) wg hwg
    rw [← heq]
    exact ⟨rfl, rfl, rfl, hne, hgrp⟩
  · intro c hc hp wid hlk
    rcases removal_dict_complete wsm (settlementParentsOf co) fb.removals [] c wid
      hc hp hlk with ⟨g, hg, hcg⟩
    exact ⟨outgoing_row now fb.name co.name (wid, g),
      List.mem_map_of_mem _ hg, rfl, hcg⟩

/-- The claimed shape of the OUTGOING_TRADE history rows of a successful
`respond_to_offer`: the bundle push is the single pending transaction; among
the added rows, the OUTGOING_TRADE rows have pairwise distinct wallets, a
zero-byte recipient, the summed amount of their grouped removals, the stable
name `H(bundle_id || tree_hash(grouped removals))`, and each carries exactly
removals that are settlement-coin parents owned by that wallet; conversely
every settlement-parent removal with an owning wallet appears in that
wallet's row. -/
def C7Spec (wsm : WSM) (rec : TradeRecord) (eff : RespondEffects) : Prop :=
  ∃ push, eff.pending_txs = [push] ∧
    (((eff.added_txs.filter
        (fun tx => decide (tx.ttype = TransactionType.OUTGOING_TRADE))).map
      TxRecord.wallet_id).Nodup ∧
    (∀ tx ∈ eff.added_txs.filter
        (fun tx => decide (tx.ttype = TransactionType.OUTGOING_TRADE)),
      tx.to_puzzle_hash = zeros32 ∧
      tx.amount = (tx.removals.map Coin.amount).sum ∧
      tx.name = std_hash (push.name ++ tree_hash_coin_list tx.removals) ∧
      ¬ tx.removals = [] ∧
      ∀ c ∈ tx.removals, c ∈ push.removals ∧
        (c.name : Bytes) ∈ settlementParentsOf rec.offer ∧
        dictGet wsm.ph_owner c.puzzle_hash = some tx.wallet_id) ∧
    (∀ c ∈ push.removals, (c.name : Bytes) ∈ settlementParentsOf rec.offer →
      ∀ wid, dictGet wsm.ph_owner c.puzzle_hash = some wid →
        ∃ tx ∈ eff.added_txs.filter
            (fun tx => decide (tx.ttype = TransactionType.OUTGOING_TRADE)),
          tx.wallet_id = wid ∧ c ∈ tx.removals))

theorem respond_success_c7 (wsm : WSM) (store : List TradeRecord) (now : Nat)
    (o t : Offer) {rec : TradeRecord} {eff : RespondEffects}
    (h : respond_success wsm store now o t = ((true, some rec, none), eff)) :
    C7Spec wsm rec eff := by
  unfold respond_success at h
  simp only [Prod.mk.injEq, Option.some.injEq, true_and, and_true] at h
  obtain ⟨hrec, heff⟩ := h
  rw [← hrec, ← heff]
  refine ⟨push_tx_of now (Offer.aggregate [o, t]).name (Offer.aggregate [o, t]).to_valid_spend,
    rfl, ?_⟩
  exact c7_rows wsm now (Offer.aggregate [o, t]) (Offer.aggregate [o, t]).to_valid_spend

/-- C7: in every successful `respond_to_offer`, the removal coins that are
settlement-coin parents are grouped by owning wallet and exactly one
OUTGOING_TRADE row is emitted per such wallet, with the zero-byte recipient
sentinel, the summed amount of the grouped removals, and the stable name
`H(bundle_id || tree_hash(grouped removals in canonical list form))`
(lines 343-376). -/
theorem c7_outgoing_rows_shape (wsm : WSM) (store : List TradeRecord) (now : Nat)
    (po : Offer) (rec : TradeRecord) (eff : RespondEffects)
    (h : respond_to_offer wsm store now po = Except.ok ((true, some rec, none), eff)) :
    C7Spec wsm rec eff := by
  obtain ⟨toff, hto⟩ := respond_to_offer_ok wsm store now po h
  exact respond_success_c7 wsm store now po toff hto

/-- Witness for C7 on the concrete balanced base-for-CAT scenario. -/
theorem c7_outgoing_rows_shape_witness : C7Spec exWSM6 exTakerRec exTakerEff :=
  c7_outgoing_rows_shape exWSM6 [] 77 peerOffer exTakerRec exTakerEff (by decide)
